import Mathlib

/-!
Verification of the ameriagrab sync/reconciliation core.

The Go sources are embedded shallowly:

* per-product SQLite tables become Lean lists of rows; `INSERT OR IGNORE`
  against a primary key becomes a guarded append; row updates become `List.map`;
* the remote feeds (`GetTransactions`, `GetEventsPast`, `GetAccountHistory`,
  `GetTransactionDetails`) are environment parameters: functions from a page
  index (or transaction id) to the records the remote returns;
* `float64` amount values are modelled as `Int` (the code only ever compares
  amount values for equality, so any type with decidable equality is faithful);
* Go's `time.Parse(time.RFC3339, s)` is an external library call and is
  modelled as a parameter `parseDate : String → Option Int` returning
  nanoseconds; `time.Duration` arithmetic is `Int` arithmetic in nanoseconds
  (`time.Minute = 60 * 10^9 ns`);
* the unbounded `for { ... }` sync loops become fuel-indexed recursion where
  `none` means "fuel exhausted before the loop hit a break".
-/

/-! ## Data model (client/types.go) -/

/-- Amount: currency code plus numeric value (`client.Amount`). -/
structure Amount where
  currency : String := ""
  amount : Int := 0
deriving DecidableEq, Repr

/-- Transaction: a card-feed or linked-account-feed record (`client.Transaction`). -/
structure Transaction where
  id : String := ""
  transactionType : String := ""
  accountingType : String := ""
  state : String := ""
  amount : Amount := {}
  correspondentAccountNumber : String := ""
  correspondentAccountName : String := ""
  details : String := ""
  operationDate : String := ""
  workflowCode : String := ""
  date : String := ""
  year : String := ""
  month : String := ""
deriving DecidableEq, Repr

/-- Extended info of a linked-account transaction (`client.TransactionExtendedInfo`). -/
structure TransactionExtendedInfo where
  beneficiaryName : String := ""
  beneficiaryAddress : String := ""
  creditAccountNumber : String := ""
  cardMaskedNumber : String := ""
  operationID : String := ""
  swiftDetails : String := ""
deriving DecidableEq, Repr

/-- One row of the `card_linked_account_transactions` table (db/schema.go):
the transaction columns plus the nullable extended-info columns and the
`extended_fetched` flag (`INTEGER DEFAULT 0`, modelled as `Bool`). -/
structure LinkedRow where
  txn : Transaction
  beneficiaryName : Option String := none
  beneficiaryAddress : Option String := none
  creditAccountNumber : Option String := none
  cardMaskedNumber : Option String := none
  extOperationId : Option String := none
  swiftDetails : Option String := none
  extendedFetched : Bool := false
deriving DecidableEq, Repr

/-- Amount with currency in account history (`client.TransactionAmt`). -/
structure TransactionAmt where
  currency : String := ""
  value : Int := 0
deriving DecidableEq, Repr

/-- Account-history record (`client.AccountTransaction`); `id` is the plain
primary key of the `account_transactions` table. -/
structure AccountTransaction where
  id : String := ""
  transactionID : String := ""
  operationID : String := ""
  status : String := ""
  transactionType : String := ""
  workflowCode : String := ""
  flowDirection : String := ""
  transactionDate : Int := 0
  settledDate : Int := 0
  date : String := ""
  month : String := ""
  year : String := ""
  debitAccountNumber : String := ""
  creditAccountNumber : String := ""
  beneficiaryName : String := ""
  details : String := ""
  sourceSystem : String := ""
  transactionAmount : TransactionAmt := {}
  settledAmount : TransactionAmt := {}
  domesticAmount : TransactionAmt := {}
deriving DecidableEq, Repr

/-! ## Store operations (db package) -/

/-- TxnKey creates a composite key from transaction ID and operation date
(db `TxnKey`). -/
def TxnKey (id operationDate : String) : String :=
  id ++ "|" ++ operationDate

/-- Composite key of a transaction record. -/
def txnKeyOf (t : Transaction) : String :=
  TxnKey t.id t.operationDate

/-- Whether the `card_transactions` table already holds a row with this
record's primary key `(id, operation_date)`. -/
def hasCardTxnPair (store : List Transaction) (t : Transaction) : Bool :=
  store.any fun r => r.id == t.id && r.operationDate == t.operationDate

/-- Loop body of `InsertCardTransactions`: one `INSERT OR IGNORE` per record,
counting the rows actually inserted. -/
def insertCardTxnsAux (store : List Transaction) (inserted : Nat) :
    List Transaction → List Transaction × Nat
  | [] => (store, inserted)
  | t :: ts =>
    if hasCardTxnPair store t then insertCardTxnsAux store inserted ts
    else insertCardTxnsAux (store ++ [t]) (inserted + 1) ts

/-- InsertCardTransactions inserts card transactions, ignoring duplicates on
the `(id, operation_date)` primary key; returns the new table and the
inserted count (db `InsertCardTransactions`). -/
def InsertCardTransactions (store : List Transaction) (txns : List Transaction) :
    List Transaction × Nat :=
  insertCardTxnsAux store 0 txns

/-- Whether `card_linked_account_transactions` already holds a row with this
record's primary key `(id, operation_date)`. -/
def hasLinkedTxnPair (store : List LinkedRow) (t : Transaction) : Bool :=
  store.any fun r => r.txn.id == t.id && r.txn.operationDate == t.operationDate

/-- Freshly inserted linked-account row: extended columns NULL,
`extended_fetched` 0. -/
def newLinkedRow (t : Transaction) : LinkedRow :=
  { txn := t }

/-- Loop body of `InsertLinkedAccountTransactions`. -/
def insertLinkedTxnsAux (store : List LinkedRow) (inserted : Nat) :
    List Transaction → List LinkedRow × Nat
  | [] => (store, inserted)
  | t :: ts =>
    if hasLinkedTxnPair store t then insertLinkedTxnsAux store inserted ts
    else insertLinkedTxnsAux (store ++ [newLinkedRow t]) (inserted + 1) ts

/-- InsertLinkedAccountTransactions inserts card linked account transactions,
ignoring duplicates on `(id, operation_date)` (db
`InsertLinkedAccountTransactions`). -/
def InsertLinkedAccountTransactions (store : List LinkedRow) (txns : List Transaction) :
    List LinkedRow × Nat :=
  insertLinkedTxnsAux store 0 txns

/-- Whether `account_transactions` already holds a row with this record's
plain `id` primary key. -/
def hasAccountTxnId (store : List AccountTransaction) (t : AccountTransaction) : Bool :=
  store.any fun r => r.id == t.id

/-- Loop body of `InsertAccountTransactions`. -/
def insertAccountTxnsAux (store : List AccountTransaction) (inserted : Nat) :
    List AccountTransaction → List AccountTransaction × Nat
  | [] => (store, inserted)
  | t :: ts =>
    if hasAccountTxnId store t then insertAccountTxnsAux store inserted ts
    else insertAccountTxnsAux (store ++ [t]) (inserted + 1) ts

/-- InsertAccountTransactions inserts account transactions, ignoring
duplicates on the plain `id` key (db `InsertAccountTransactions`). -/
def InsertAccountTransactions (store : List AccountTransaction)
    (txns : List AccountTransaction) : List AccountTransaction × Nat :=
  insertAccountTxnsAux store 0 txns

/-- GetExistingCardTxnKeys: the set of `id|operation_date` keys stored for a
product (db `GetExistingCardTxnKeys`). -/
def GetExistingCardTxnKeys (store : List Transaction) : List String :=
  store.map txnKeyOf

/-- GetExistingLinkedAccountTxnKeys: stored composite keys of the linked
account table (db `GetExistingLinkedAccountTxnKeys`). -/
def GetExistingLinkedAccountTxnKeys (store : List LinkedRow) : List String :=
  store.map fun r => txnKeyOf r.txn

/-- GetExistingAccountTxnIDs: stored ids of the account table (db
`GetExistingAccountTxnIDs`). -/
def GetExistingAccountTxnIDs (store : List AccountTransaction) : List String :=
  store.map fun r => r.id

/-- UpdateTransactionExtendedInfo: one SQL UPDATE that sets the six extended
columns and `extended_fetched = 1` on the row(s) matching
`(id, operation_date)` (db `UpdateTransactionExtendedInfo`). -/
def UpdateTransactionExtendedInfo (store : List LinkedRow)
    (txnID operationDate : String) (ext : TransactionExtendedInfo) : List LinkedRow :=
  store.map fun r =>
    if r.txn.id == txnID && r.txn.operationDate == operationDate then
      { r with
        beneficiaryName := some ext.beneficiaryName
        beneficiaryAddress := some ext.beneficiaryAddress
        creditAccountNumber := some ext.creditAccountNumber
        cardMaskedNumber := some ext.cardMaskedNumber
        extOperationId := some ext.operationID
        swiftDetails := some ext.swiftDetails
        extendedFetched := true }
    else r

/-- GetTransactionsNeedingExtendedInfo: `(id, operation_date)` of every row
whose `extended_fetched` is NULL or 0 (db `GetTransactionsNeedingExtendedInfo`). -/
def GetTransactionsNeedingExtendedInfo (store : List LinkedRow) :
    List (String × String) :=
  (store.filter fun r => !r.extendedFetched).map fun r => (r.txn.id, r.txn.operationDate)

/-! ## Sync orchestrator (cmd sync) -/

/-- Fixed page size of the paginated feeds (cmd `syncPageSize`). -/
def syncPageSize : Nat := 1000

/-- Card-feed portion of `syncCard`: read the existing composite keys, filter
the single unpaginated fetch down to unseen keys, insert as one batch
(cmd `syncCard`, the `GetTransactions` part). -/
def syncCardFeed (store : List Transaction) (entries : List Transaction) :
    List Transaction × Nat :=
  let existingCardKeys := GetExistingCardTxnKeys store
  let newTxns := entries.filter fun t => !(existingCardKeys.contains (txnKeyOf t))
  InsertCardTransactions store newTxns

/-- Per-page dedup state of the linked-account loop: the records found new on
this page, the updated in-memory key set, and the `allExist` flag. -/
structure PageResult where
  newTxns : List Transaction
  seenKeys : List String
  allExist : Bool
deriving DecidableEq, Repr

/-- Inner per-record loop of `syncCardAccountTransactions`: an unseen key is
appended to `newTxns`, marked seen, and clears `allExist`. -/
def processEntriesAux (r : PageResult) : List Transaction → PageResult
  | [] => r
  | t :: ts =>
    if r.seenKeys.contains (txnKeyOf t) then processEntriesAux r ts
    else
      processEntriesAux
        { newTxns := r.newTxns ++ [t]
          seenKeys := r.seenKeys ++ [txnKeyOf t]
          allExist := false } ts

/-- Dedup of one fetched page against the in-memory key set. -/
def processEntries (keys : List String) (entries : List Transaction) : PageResult :=
  processEntriesAux { newTxns := [], seenKeys := keys, allExist := true } entries

/-- State carried across pages of the linked-account loop: in-memory key set,
the `card_linked_account_transactions` table, and `allNewTxns`, the records
inserted by this run (later handed to the enrichment fetcher). -/
structure LinkedSyncState where
  keys : List String
  store : List LinkedRow
  allNewTxns : List Transaction
deriving DecidableEq, Repr

/-- Paginated `GetEventsPast` loop of `syncCardAccountTransactions`: break on
an empty page; otherwise dedup, insert the new subset as one batch, and break
when the page was short or every record on it already existed; else advance
one page. `none` means the fuel ran out before a break. -/
def syncLinkedLoop (feed : Nat → List Transaction) :
    Nat → Nat → LinkedSyncState → Option LinkedSyncState
  | 0, _, _ => none
  | fuel + 1, page, st =>
    let entries := feed page
    if entries.length = 0 then some st
    else
      let r := processEntries st.keys entries
      let stAfter : LinkedSyncState :=
        ⟨r.seenKeys, (InsertLinkedAccountTransactions st.store r.newTxns).1,
          st.allNewTxns ++ r.newTxns⟩
      if entries.length < syncPageSize ∨ r.allExist = true then some stAfter
      else syncLinkedLoop feed fuel (page + 1) stAfter

/-- syncCardAccountTransactions: seed the key set from the store and run the
paginated loop from page 0 (cmd `syncCardAccountTransactions`). -/
def syncCardAccountTransactions (feed : Nat → List Transaction)
    (store : List LinkedRow) (fuel : Nat) : Option LinkedSyncState :=
  syncLinkedLoop feed fuel 0 ⟨GetExistingLinkedAccountTxnKeys store, store, []⟩

/-- Per-page dedup state of the account loop (dedup by plain id). -/
structure AccountPageResult where
  newTxns : List AccountTransaction
  seenIds : List String
  allExist : Bool
deriving DecidableEq, Repr

/-- Inner per-record loop of `syncAccount`. -/
def processAccountEntriesAux (r : AccountPageResult) :
    List AccountTransaction → AccountPageResult
  | [] => r
  | t :: ts =>
    if r.seenIds.contains t.id then processAccountEntriesAux r ts
    else
      processAccountEntriesAux
        { newTxns := r.newTxns ++ [t]
          seenIds := r.seenIds ++ [t.id]
          allExist := false } ts

/-- Dedup of one account-history page against the in-memory id set. -/
def processAccountEntries (ids : List String) (entries : List AccountTransaction) :
    AccountPageResult :=
  processAccountEntriesAux { newTxns := [], seenIds := ids, allExist := true } entries

/-- State carried across pages of the account loop. -/
structure AccountSyncState where
  ids : List String
  store : List AccountTransaction
deriving DecidableEq, Repr

/-- Paginated `GetAccountHistory` loop of `syncAccount`: the feed returns a
page plus its `hasNext` flag; break on an empty page; otherwise insert the new
subset and break when `hasNext` is false or every record already existed. -/
def syncAccountLoop (feed : Nat → List AccountTransaction × Bool) :
    Nat → Nat → AccountSyncState → Option AccountSyncState
  | 0, _, _ => none
  | fuel + 1, page, st =>
    let resp := feed page
    if resp.1.length = 0 then some st
    else
      let r := processAccountEntries st.ids resp.1
      let stAfter : AccountSyncState :=
        ⟨r.seenIds, (InsertAccountTransactions st.store r.newTxns).1⟩
      if resp.2 = false ∨ r.allExist = true then some stAfter
      else syncAccountLoop feed fuel (page + 1) stAfter

/-- syncAccount: seed the id set from the store and run the account loop from
page 0 (cmd `syncAccount`). -/
def syncAccount (feed : Nat → List AccountTransaction × Bool)
    (store : List AccountTransaction) (fuel : Nat) : Option AccountSyncState :=
  syncAccountLoop feed fuel 0 ⟨GetExistingAccountTxnIDs store, store⟩

/-! ## Enrichment fetcher (cmd `fetchAndStoreExtendedInfo`)

The errgroup fan-out is sequentialized in input order: `lookup` composes
`GetTransactionDetails` with the response-to-`TransactionExtendedInfo`
mapping, and a single failed lookup makes the whole collection phase fail, so
that the write-back loop never runs (in Go, `g.Wait()` returns the first error
before any `UpdateTransactionExtendedInfo` call). The write-back loop issues
one store update per collected result and stops at the first store error;
`writeOk` tells which updates the store accepts. -/

/-- Collection phase: one detail lookup per transaction; `none` when any
lookup fails. -/
def collectExtInfos (lookup : String → Option TransactionExtendedInfo) :
    List Transaction → Option (List (String × String × TransactionExtendedInfo))
  | [] => some []
  | t :: ts =>
    match lookup t.id, collectExtInfos lookup ts with
    | some ext, some rest => some ((t.id, t.operationDate, ext) :: rest)
    | _, _ => none

/-- Write-back loop: one `UpdateTransactionExtendedInfo` per result, in order,
returning early (flag `false`) at the first failed update. -/
def storeExtInfoLoop (writeOk : String → Bool) (store : List LinkedRow) :
    List (String × String × TransactionExtendedInfo) → List LinkedRow × Bool
  | [] => (store, true)
  | info :: rest =>
    if writeOk info.1 then
      storeExtInfoLoop writeOk
        (UpdateTransactionExtendedInfo store info.1 info.2.1 info.2.2) rest
    else (store, false)

/-- All collected results applied to the store in order (the effect of a
write-back loop in which every update succeeds). -/
def applyExtInfos (store : List LinkedRow)
    (infos : List (String × String × TransactionExtendedInfo)) : List LinkedRow :=
  infos.foldl (fun s info => UpdateTransactionExtendedInfo s info.1 info.2.1 info.2.2) store

/-- fetchAndStoreExtendedInfo: collect every detail lookup, then write the
results back one by one; the flag is `false` when a lookup or an update
failed (cmd `fetchAndStoreExtendedInfo`). -/
def fetchAndStoreExtendedInfo (lookup : String → Option TransactionExtendedInfo)
    (writeOk : String → Bool) (store : List LinkedRow) (txns : List Transaction) :
    List LinkedRow × Bool :=
  match collectExtInfos lookup txns with
  | none => (store, false)
  | some infos => storeExtInfoLoop writeOk store infos

/-! ## Reconciliation engine (db/combined_txn.go) -/

/-- RealTimeTransactionTypes: linked-account transaction types with accurate
timestamps (db `RealTimeTransactionTypes`). -/
def RealTimeTransactionTypes : List String :=
  ["transfer:to-card", "transfer:local", "exchange", "cash-out",
   "transfer:between-own-accounts"]

/-- Matching tolerance: `time.Minute` in nanoseconds. -/
def timeTolerance : Int := 60 * 1000000000

/-- Absolute value of a duration, written as in the Go source
(`if diff < 0 { diff = -diff }`). -/
def goAbs (d : Int) : Int :=
  if d < 0 then -d else d

/-- Candidate scan of `mergeTransactions`: track the closest linked record
seen so far (`matched`) and its time difference (`minDiff`, seeded with
`timeTolerance + 1`); unparseable candidate dates are skipped. -/
def bestCandidateAux (parseDate : String → Option Int) (cardTime : Int)
    (matched : Option Transaction) (minDiff : Int) :
    List Transaction → Option Transaction
  | [] => matched
  | linked :: rest =>
    match parseDate linked.operationDate with
    | none => bestCandidateAux parseDate cardTime matched minDiff rest
    | some linkedTime =>
      let diff := goAbs (cardTime - linkedTime)
      if diff ≤ timeTolerance ∧ diff < minDiff then
        bestCandidateAux parseDate cardTime (some linked) diff rest
      else bestCandidateAux parseDate cardTime matched minDiff rest

/-- Closest candidate within tolerance, if any. -/
def bestCandidate (parseDate : String → Option Int) (cardTime : Int)
    (candidates : List Transaction) : Option Transaction :=
  bestCandidateAux parseDate cardTime none (timeTolerance + 1) candidates

/-- The `linkedByAmount` bucket of one amount value: the map built at the top
of `mergeTransactions` appends linked records in feed order, so the bucket of
`amt` is the order-preserving filter on equal amount value. -/
def amountBucket (linkedTxns : List Transaction) (amt : Int) : List Transaction :=
  linkedTxns.filter fun l => l.amount.amount == amt

/-- Card-record matching pass of `mergeTransactions`: each card record is
emitted as its matched linked record (whose key is recorded) or as itself.
The per-record computation reads only `parseDate` and the buckets — the Go
loop writes `matchedLinked` during this pass but never reads it — so the pass
is a record-by-record recursion. -/
def matchPass (parseDate : String → Option Int) (linkedTxns : List Transaction) :
    List Transaction → List Transaction × List String
  | [] => ([], [])
  | cardTxn :: rest =>
    let r := matchPass parseDate linkedTxns rest
    match parseDate cardTxn.operationDate with
    | none => (cardTxn :: r.1, r.2)
    | some cardTime =>
      match bestCandidate parseDate cardTime
          (amountBucket linkedTxns cardTxn.amount.amount) with
      | some m => (m :: r.1, txnKeyOf m :: r.2)
      | none => (cardTxn :: r.1, r.2)

/-- Second pass of `mergeTransactions`: skip linked records whose key was
claimed, skip type `"card"`, keep only the real-time allow-list. -/
def unmatchedLinkedPass (matchedLinked : List String) :
    List Transaction → List Transaction
  | [] => []
  | linkedTxn :: rest =>
    if matchedLinked.contains (txnKeyOf linkedTxn) then
      unmatchedLinkedPass matchedLinked rest
    else if linkedTxn.transactionType == "card" then
      unmatchedLinkedPass matchedLinked rest
    else if RealTimeTransactionTypes.contains linkedTxn.transactionType then
      linkedTxn :: unmatchedLinkedPass matchedLinked rest
    else unmatchedLinkedPass matchedLinked rest

/-- mergeTransactions: the matching pass over card records followed by the
filtered unmatched linked records (db `mergeTransactions`). -/
def mergeTransactions (parseDate : String → Option Int)
    (cardTxns linkedTxns : List Transaction) : List Transaction :=
  let p := matchPass parseDate linkedTxns cardTxns
  p.1 ++ unmatchedLinkedPass p.2 linkedTxns

/-! ## Helper lemmas: keys, membership, insertion -/

theorem contains_iff_mem {α : Type} [BEq α] [LawfulBEq α] {l : List α} {a : α} :
    l.contains a = true ↔ a ∈ l := by
  induction l with
  | nil => simp [List.contains]
  | cons b bs ih => simp [List.contains] at ih ⊢

theorem txnKeyOf_congr {r t : Transaction} (hid : r.id = t.id)
    (hdate : r.operationDate = t.operationDate) : txnKeyOf r = txnKeyOf t := by
  simp [txnKeyOf, TxnKey, hid, hdate]

theorem hasCardTxnPair_iff {store : List Transaction} {t : Transaction} :
    hasCardTxnPair store t = true ↔
      ∃ r ∈ store, r.id = t.id ∧ r.operationDate = t.operationDate := by
  simp [hasCardTxnPair, List.any_eq_true]

theorem hasLinkedTxnPair_iff {store : List LinkedRow} {t : Transaction} :
    hasLinkedTxnPair store t = true ↔
      ∃ r ∈ store, r.txn.id = t.id ∧ r.txn.operationDate = t.operationDate := by
  simp [hasLinkedTxnPair, List.any_eq_true]

theorem hasAccountTxnId_iff {store : List AccountTransaction} {t : AccountTransaction} :
    hasAccountTxnId store t = true ↔ ∃ r ∈ store, r.id = t.id := by
  simp [hasAccountTxnId, List.any_eq_true]

theorem cardKeys_insertAux_mono {k : String} {ts : List Transaction} :
    ∀ {store : List Transaction} {n : Nat}, k ∈ GetExistingCardTxnKeys store →
      k ∈ GetExistingCardTxnKeys (insertCardTxnsAux store n ts).1 := by
  induction ts with
  | nil => intro store n h; simpa [insertCardTxnsAux] using h
  | cons t ts ih =>
    intro store n h
    by_cases hp : hasCardTxnPair store t
    · simpa [insertCardTxnsAux, hp] using ih h
    · simp only [insertCardTxnsAux, hp, if_false, Bool.false_eq_true]
      refine ih ?_
      have hk : GetExistingCardTxnKeys (store ++ [t]) =
          GetExistingCardTxnKeys store ++ [txnKeyOf t] := by
        simp [GetExistingCardTxnKeys]
      rw [hk]; exact List.mem_append_left _ h

theorem cardKeys_insertAux_cover {t : Transaction} {ts : List Transaction} :
    ∀ {store : List Transaction} {n : Nat}, t ∈ ts →
      txnKeyOf t ∈ GetExistingCardTxnKeys (insertCardTxnsAux store n ts).1 := by
  induction ts with
  | nil => intro store n h; cases h
  | cons u ts ih =>
    intro store n h
    rcases List.mem_cons.mp h with rfl | hmem
    · by_cases hp : hasCardTxnPair store t
      · obtain ⟨r, hr, hid, hdate⟩ := hasCardTxnPair_iff.mp hp
        have hkey : txnKeyOf r = txnKeyOf t := txnKeyOf_congr hid hdate
        have : txnKeyOf t ∈ GetExistingCardTxnKeys store := by
          simp [GetExistingCardTxnKeys]; exact ⟨r, hr, hkey⟩
        simpa [insertCardTxnsAux, hp] using cardKeys_insertAux_mono this
      · simp only [insertCardTxnsAux, hp, if_false, Bool.false_eq_true]
        exact cardKeys_insertAux_mono (by simp [GetExistingCardTxnKeys])
    · by_cases hp : hasCardTxnPair store u
      · simpa [insertCardTxnsAux, hp] using ih hmem
      · simp only [insertCardTxnsAux, hp, if_false, Bool.false_eq_true]
        exact ih hmem

theorem linkedKeys_insertAux_mono {k : String} {ts : List Transaction} :
    ∀ {store : List LinkedRow} {n : Nat}, k ∈ GetExistingLinkedAccountTxnKeys store →
      k ∈ GetExistingLinkedAccountTxnKeys (insertLinkedTxnsAux store n ts).1 := by
  induction ts with
  | nil => intro store n h; simpa [insertLinkedTxnsAux] using h
  | cons t ts ih =>
    intro store n h
    by_cases hp : hasLinkedTxnPair store t
    · simpa [insertLinkedTxnsAux, hp] using ih h
    · simp only [insertLinkedTxnsAux, hp, if_false, Bool.false_eq_true]
      refine ih ?_
      have hk : GetExistingLinkedAccountTxnKeys (store ++ [newLinkedRow t]) =
          GetExistingLinkedAccountTxnKeys store ++ [txnKeyOf t] := by
        simp [GetExistingLinkedAccountTxnKeys, newLinkedRow]
      rw [hk]; exact List.mem_append_left _ h

theorem linkedKeys_insertAux_cover {t : Transaction} {ts : List Transaction} :
    ∀ {store : List LinkedRow} {n : Nat}, t ∈ ts →
      txnKeyOf t ∈ GetExistingLinkedAccountTxnKeys (insertLinkedTxnsAux store n ts).1 := by
  induction ts with
  | nil => intro store n h; cases h
  | cons u ts ih =>
    intro store n h
    rcases List.mem_cons.mp h with rfl | hmem
    · by_cases hp : hasLinkedTxnPair store t
      · obtain ⟨r, hr, hid, hdate⟩ := hasLinkedTxnPair_iff.mp hp
        have hkey : txnKeyOf r.txn = txnKeyOf t := txnKeyOf_congr hid hdate
        have : txnKeyOf t ∈ GetExistingLinkedAccountTxnKeys store := by
          simp [GetExistingLinkedAccountTxnKeys]; exact ⟨r, hr, hkey⟩
        simpa [insertLinkedTxnsAux, hp] using linkedKeys_insertAux_mono this
      · simp only [insertLinkedTxnsAux, hp, if_false, Bool.false_eq_true]
        exact linkedKeys_insertAux_mono
          (by simp [GetExistingLinkedAccountTxnKeys, newLinkedRow])
    · by_cases hp : hasLinkedTxnPair store u
      · simpa [insertLinkedTxnsAux, hp] using ih hmem
      · simp only [insertLinkedTxnsAux, hp, if_false, Bool.false_eq_true]
        exact ih hmem

theorem accountIds_insertAux_mono {k : String} {ts : List AccountTransaction} :
    ∀ {store : List AccountTransaction} {n : Nat}, k ∈ GetExistingAccountTxnIDs store →
      k ∈ GetExistingAccountTxnIDs (insertAccountTxnsAux store n ts).1 := by
  induction ts with
  | nil => intro store n h; simpa [insertAccountTxnsAux] using h
  | cons t ts ih =>
    intro store n h
    by_cases hp : hasAccountTxnId store t
    · simpa [insertAccountTxnsAux, hp] using ih h
    · simp only [insertAccountTxnsAux, hp, if_false, Bool.false_eq_true]
      refine ih ?_
      have hk : GetExistingAccountTxnIDs (store ++ [t]) =
          GetExistingAccountTxnIDs store ++ [t.id] := by
        simp [GetExistingAccountTxnIDs]
      rw [hk]; exact List.mem_append_left _ h

theorem accountIds_insertAux_cover {t : AccountTransaction} {ts : List AccountTransaction} :
    ∀ {store : List AccountTransaction} {n : Nat}, t ∈ ts →
      t.id ∈ GetExistingAccountTxnIDs (insertAccountTxnsAux store n ts).1 := by
  induction ts with
  | nil => intro store n h; cases h
  | cons u ts ih =>
    intro store n h
    rcases List.mem_cons.mp h with rfl | hmem
    · by_cases hp : hasAccountTxnId store t
      · obtain ⟨r, hr, hid⟩ := hasAccountTxnId_iff.mp hp
        have : t.id ∈ GetExistingAccountTxnIDs store := by
          simp [GetExistingAccountTxnIDs]; exact ⟨r, hr, hid⟩
        simpa [insertAccountTxnsAux, hp] using accountIds_insertAux_mono this
      · simp only [insertAccountTxnsAux, hp, if_false, Bool.false_eq_true]
        exact accountIds_insertAux_mono (by simp [GetExistingAccountTxnIDs])
    · by_cases hp : hasAccountTxnId store u
      · simpa [insertAccountTxnsAux, hp] using ih hmem
      · simp only [insertAccountTxnsAux, hp, if_false, Bool.false_eq_true]
        exact ih hmem

/-! ## Helper lemmas: per-page dedup -/

theorem processEntriesAux_cons_pos {r : PageResult} {t : Transaction}
    {ts : List Transaction} (hc : r.seenKeys.contains (txnKeyOf t) = true) :
    processEntriesAux r (t :: ts) = processEntriesAux r ts := by
  simp only [processEntriesAux]; rw [if_pos hc]

theorem processEntriesAux_cons_neg {r : PageResult} {t : Transaction}
    {ts : List Transaction} (hc : ¬ r.seenKeys.contains (txnKeyOf t) = true) :
    processEntriesAux r (t :: ts) =
      processEntriesAux
        { newTxns := r.newTxns ++ [t], seenKeys := r.seenKeys ++ [txnKeyOf t],
          allExist := false } ts := by
  simp only [processEntriesAux]; rw [if_neg hc]

theorem processEntriesAux_allExist_false {es : List Transaction} :
    ∀ {r : PageResult}, r.allExist = false → (processEntriesAux r es).allExist = false := by
  induction es with
  | nil => intro r h; simpa [processEntriesAux] using h
  | cons t ts ih =>
    intro r h
    by_cases hc : r.seenKeys.contains (txnKeyOf t) = true
    · rw [processEntriesAux_cons_pos hc]; exact ih h
    · rw [processEntriesAux_cons_neg hc]; exact ih rfl

theorem processEntriesAux_of_all_known {es : List Transaction} :
    ∀ {r : PageResult}, (∀ t ∈ es, r.seenKeys.contains (txnKeyOf t) = true) →
      processEntriesAux r es = r := by
  induction es with
  | nil => intro r _; rfl
  | cons t ts ih =>
    intro r h
    rw [processEntriesAux_cons_pos (h t (by simp))]
    exact ih fun u hu => h u (by simp [hu])

theorem processEntriesAux_seen_mono {es : List Transaction} {k : String} :
    ∀ {r : PageResult}, k ∈ r.seenKeys → k ∈ (processEntriesAux r es).seenKeys := by
  induction es with
  | nil => intro r h; simpa [processEntriesAux] using h
  | cons t ts ih =>
    intro r h
    by_cases hc : r.seenKeys.contains (txnKeyOf t) = true
    · rw [processEntriesAux_cons_pos hc]; exact ih h
    · rw [processEntriesAux_cons_neg hc]; exact ih (List.mem_append_left _ h)

theorem processEntriesAux_new_mono {es : List Transaction} {t : Transaction} :
    ∀ {r : PageResult}, t ∈ r.newTxns → t ∈ (processEntriesAux r es).newTxns := by
  induction es with
  | nil => intro r h; simpa [processEntriesAux] using h
  | cons u ts ih =>
    intro r h
    by_cases hc : r.seenKeys.contains (txnKeyOf u) = true
    · rw [processEntriesAux_cons_pos hc]; exact ih h
    · rw [processEntriesAux_cons_neg hc]; exact ih (List.mem_append_left _ h)

theorem processEntriesAux_mem_seen {es : List Transaction} {t : Transaction} :
    ∀ {r : PageResult}, t ∈ es → txnKeyOf t ∈ (processEntriesAux r es).seenKeys := by
  induction es with
  | nil => intro r h; cases h
  | cons u ts ih =>
    intro r h
    rcases List.mem_cons.mp h with rfl | hmem
    · by_cases hc : r.seenKeys.contains (txnKeyOf t) = true
      · rw [processEntriesAux_cons_pos hc]
        exact processEntriesAux_seen_mono (contains_iff_mem.mp hc)
      · rw [processEntriesAux_cons_neg hc]
        exact processEntriesAux_seen_mono (by simp)
    · by_cases hc : r.seenKeys.contains (txnKeyOf u) = true
      · rw [processEntriesAux_cons_pos hc]; exact ih hmem
      · rw [processEntriesAux_cons_neg hc]; exact ih hmem

theorem processEntriesAux_seen_src {es : List Transaction} {k : String} :
    ∀ {r : PageResult}, k ∈ (processEntriesAux r es).seenKeys →
      k ∈ r.seenKeys ∨ ∃ t ∈ (processEntriesAux r es).newTxns, txnKeyOf t = k := by
  induction es with
  | nil => intro r h; exact Or.inl (by simpa [processEntriesAux] using h)
  | cons t ts ih =>
    intro r h
    by_cases hc : r.seenKeys.contains (txnKeyOf t) = true
    · rw [processEntriesAux_cons_pos hc] at h ⊢
      exact ih h
    · rw [processEntriesAux_cons_neg hc] at h ⊢
      rcases ih h with h1 | h2
      · rcases List.mem_append.mp h1 with h1a | h1b
        · exact Or.inl h1a
        · refine Or.inr ⟨t, ?_, ?_⟩
          · exact processEntriesAux_new_mono (by simp)
          · simpa using (List.mem_singleton.mp h1b).symm
      · exact Or.inr h2

theorem processEntriesAux_allExist_known {es : List Transaction} :
    ∀ {r : PageResult}, (processEntriesAux r es).allExist = true →
      ∀ t ∈ es, r.seenKeys.contains (txnKeyOf t) = true := by
  induction es with
  | nil => intro r _ t ht; cases ht
  | cons u ts ih =>
    intro r h t ht
    by_cases hc : r.seenKeys.contains (txnKeyOf u) = true
    · rw [processEntriesAux_cons_pos hc] at h
      rcases List.mem_cons.mp ht with rfl | hmem
      · exact hc
      · exact ih h t hmem
    · rw [processEntriesAux_cons_neg hc] at h
      rw [processEntriesAux_allExist_false rfl] at h
      cases h

theorem processEntries_allExist_iff {keys : List String} {es : List Transaction} :
    (processEntries keys es).allExist = true ↔
      ∀ t ∈ es, keys.contains (txnKeyOf t) = true := by
  constructor
  · intro h
    exact processEntriesAux_allExist_known h
  · intro h
    have : processEntriesAux { newTxns := [], seenKeys := keys, allExist := true } es =
        { newTxns := [], seenKeys := keys, allExist := true } :=
      processEntriesAux_of_all_known h
    simp [processEntries, this]

theorem processAccountEntriesAux_cons_pos {r : AccountPageResult}
    {t : AccountTransaction} {ts : List AccountTransaction}
    (hc : r.seenIds.contains t.id = true) :
    processAccountEntriesAux r (t :: ts) = processAccountEntriesAux r ts := by
  simp only [processAccountEntriesAux]; rw [if_pos hc]

theorem processAccountEntriesAux_cons_neg {r : AccountPageResult}
    {t : AccountTransaction} {ts : List AccountTransaction}
    (hc : ¬ r.seenIds.contains t.id = true) :
    processAccountEntriesAux r (t :: ts) =
      processAccountEntriesAux
        { newTxns := r.newTxns ++ [t], seenIds := r.seenIds ++ [t.id],
          allExist := false } ts := by
  simp only [processAccountEntriesAux]; rw [if_neg hc]

theorem processAccountEntriesAux_allExist_false {es : List AccountTransaction} :
    ∀ {r : AccountPageResult}, r.allExist = false →
      (processAccountEntriesAux r es).allExist = false := by
  induction es with
  | nil => intro r h; simpa [processAccountEntriesAux] using h
  | cons t ts ih =>
    intro r h
    by_cases hc : r.seenIds.contains t.id = true
    · rw [processAccountEntriesAux_cons_pos hc]; exact ih h
    · rw [processAccountEntriesAux_cons_neg hc]; exact ih rfl

theorem processAccountEntriesAux_of_all_known {es : List AccountTransaction} :
    ∀ {r : AccountPageResult}, (∀ t ∈ es, r.seenIds.contains t.id = true) →
      processAccountEntriesAux r es = r := by
  induction es with
  | nil => intro r _; rfl
  | cons t ts ih =>
    intro r h
    rw [processAccountEntriesAux_cons_pos (h t (by simp))]
    exact ih fun u hu => h u (by simp [hu])

theorem processAccountEntriesAux_seen_mono {es : List AccountTransaction} {k : String} :
    ∀ {r : AccountPageResult}, k ∈ r.seenIds →
      k ∈ (processAccountEntriesAux r es).seenIds := by
  induction es with
  | nil => intro r h; simpa [processAccountEntriesAux] using h
  | cons t ts ih =>
    intro r h
    by_cases hc : r.seenIds.contains t.id = true
    · rw [processAccountEntriesAux_cons_pos hc]; exact ih h
    · rw [processAccountEntriesAux_cons_neg hc]; exact ih (List.mem_append_left _ h)

theorem processAccountEntriesAux_new_mono {es : List AccountTransaction}
    {t : AccountTransaction} :
    ∀ {r : AccountPageResult}, t ∈ r.newTxns →
      t ∈ (processAccountEntriesAux r es).newTxns := by
  induction es with
  | nil => intro r h; simpa [processAccountEntriesAux] using h
  | cons u ts ih =>
    intro r h
    by_cases hc : r.seenIds.contains u.id = true
    · rw [processAccountEntriesAux_cons_pos hc]; exact ih h
    · rw [processAccountEntriesAux_cons_neg hc]; exact ih (List.mem_append_left _ h)

theorem processAccountEntriesAux_mem_seen {es : List AccountTransaction}
    {t : AccountTransaction} :
    ∀ {r : AccountPageResult}, t ∈ es → t.id ∈ (processAccountEntriesAux r es).seenIds := by
  induction es with
  | nil => intro r h; cases h
  | cons u ts ih =>
    intro r h
    rcases List.mem_cons.mp h with rfl | hmem
    · by_cases hc : r.seenIds.contains t.id = true
      · rw [processAccountEntriesAux_cons_pos hc]
        exact processAccountEntriesAux_seen_mono (contains_iff_mem.mp hc)
      · rw [processAccountEntriesAux_cons_neg hc]
        exact processAccountEntriesAux_seen_mono (by simp)
    · by_cases hc : r.seenIds.contains u.id = true
      · rw [processAccountEntriesAux_cons_pos hc]; exact ih hmem
      · rw [processAccountEntriesAux_cons_neg hc]; exact ih hmem

theorem processAccountEntriesAux_seen_src {es : List AccountTransaction} {k : String} :
    ∀ {r : AccountPageResult}, k ∈ (processAccountEntriesAux r es).seenIds →
      k ∈ r.seenIds ∨ ∃ t ∈ (processAccountEntriesAux r es).newTxns, t.id = k := by
  induction es with
  | nil => intro r h; exact Or.inl (by simpa [processAccountEntriesAux] using h)
  | cons t ts ih =>
    intro r h
    by_cases hc : r.seenIds.contains t.id = true
    · rw [processAccountEntriesAux_cons_pos hc] at h ⊢
      exact ih h
    · rw [processAccountEntriesAux_cons_neg hc] at h ⊢
      rcases ih h with h1 | h2
      · rcases List.mem_append.mp h1 with h1a | h1b
        · exact Or.inl h1a
        · refine Or.inr ⟨t, ?_, ?_⟩
          · exact processAccountEntriesAux_new_mono (by simp)
          · simpa using (List.mem_singleton.mp h1b).symm
      · exact Or.inr h2

theorem processAccountEntriesAux_allExist_known {es : List AccountTransaction} :
    ∀ {r : AccountPageResult}, (processAccountEntriesAux r es).allExist = true →
      ∀ t ∈ es, r.seenIds.contains t.id = true := by
  induction es with
  | nil => intro r _ t ht; cases ht
  | cons u ts ih =>
    intro r h t ht
    by_cases hc : r.seenIds.contains u.id = true
    · rw [processAccountEntriesAux_cons_pos hc] at h
      rcases List.mem_cons.mp ht with rfl | hmem
      · exact hc
      · exact ih h t hmem
    · rw [processAccountEntriesAux_cons_neg hc] at h
      rw [processAccountEntriesAux_allExist_false rfl] at h
      cases h

theorem processAccountEntries_allExist_iff {ids : List String}
    {es : List AccountTransaction} :
    (processAccountEntries ids es).allExist = true ↔
      ∀ t ∈ es, ids.contains t.id = true := by
  constructor
  · intro h
    exact processAccountEntriesAux_allExist_known h
  · intro h
    have : processAccountEntriesAux { newTxns := [], seenIds := ids, allExist := true } es =
        { newTxns := [], seenIds := ids, allExist := true } :=
      processAccountEntriesAux_of_all_known h
    simp [processAccountEntries, this]

/-! ## Helper lemmas: the paginated loops -/

theorem syncLinkedLoop_succ_empty {feed : Nat → List Transaction} {fuel page : Nat}
    {st : LinkedSyncState} (h : (feed page).length = 0) :
    syncLinkedLoop feed (fuel + 1) page st = some st := by
  simp only [syncLinkedLoop]
  rw [if_pos h]

theorem syncLinkedLoop_succ_stop {feed : Nat → List Transaction} {fuel page : Nat}
    {st : LinkedSyncState} (h0 : ¬ (feed page).length = 0)
    (h : (feed page).length < syncPageSize ∨
      (processEntries st.keys (feed page)).allExist = true) :
    syncLinkedLoop feed (fuel + 1) page st =
      some ⟨(processEntries st.keys (feed page)).seenKeys,
        (InsertLinkedAccountTransactions st.store
          (processEntries st.keys (feed page)).newTxns).1,
        st.allNewTxns ++ (processEntries st.keys (feed page)).newTxns⟩ := by
  simp only [syncLinkedLoop]
  rw [if_neg h0, if_pos h]

theorem syncLinkedLoop_succ_go {feed : Nat → List Transaction} {fuel page : Nat}
    {st : LinkedSyncState} (h0 : ¬ (feed page).length = 0)
    (h : ¬ ((feed page).length < syncPageSize ∨
      (processEntries st.keys (feed page)).allExist = true)) :
    syncLinkedLoop feed (fuel + 1) page st =
      syncLinkedLoop feed fuel (page + 1)
        ⟨(processEntries st.keys (feed page)).seenKeys,
          (InsertLinkedAccountTransactions st.store
            (processEntries st.keys (feed page)).newTxns).1,
          st.allNewTxns ++ (processEntries st.keys (feed page)).newTxns⟩ := by
  simp only [syncLinkedLoop]
  rw [if_neg h0, if_neg h]

theorem syncAccountLoop_succ_empty {feed : Nat → List AccountTransaction × Bool}
    {fuel page : Nat} {st : AccountSyncState} (h : (feed page).1.length = 0) :
    syncAccountLoop feed (fuel + 1) page st = some st := by
  simp only [syncAccountLoop]
  rw [if_pos h]

theorem syncAccountLoop_succ_stop {feed : Nat → List AccountTransaction × Bool}
    {fuel page : Nat} {st : AccountSyncState} (h0 : ¬ (feed page).1.length = 0)
    (h : (feed page).2 = false ∨
      (processAccountEntries st.ids (feed page).1).allExist = true) :
    syncAccountLoop feed (fuel + 1) page st =
      some ⟨(processAccountEntries st.ids (feed page).1).seenIds,
        (InsertAccountTransactions st.store
          (processAccountEntries st.ids (feed page).1).newTxns).1⟩ := by
  simp only [syncAccountLoop]
  rw [if_neg h0, if_pos h]

theorem syncAccountLoop_succ_go {feed : Nat → List AccountTransaction × Bool}
    {fuel page : Nat} {st : AccountSyncState} (h0 : ¬ (feed page).1.length = 0)
    (h : ¬ ((feed page).2 = false ∨
      (processAccountEntries st.ids (feed page).1).allExist = true)) :
    syncAccountLoop feed (fuel + 1) page st =
      syncAccountLoop feed fuel (page + 1)
        ⟨(processAccountEntries st.ids (feed page).1).seenIds,
          (InsertAccountTransactions st.store
            (processAccountEntries st.ids (feed page).1).newTxns).1⟩ := by
  simp only [syncAccountLoop]
  rw [if_neg h0, if_neg h]

theorem syncLinkedLoop_keys_mono {feed : Nat → List Transaction} {k : String} :
    ∀ {fuel page : Nat} {st st1 : LinkedSyncState},
      syncLinkedLoop feed fuel page st = some st1 →
      k ∈ GetExistingLinkedAccountTxnKeys st.store →
      k ∈ GetExistingLinkedAccountTxnKeys st1.store := by
  intro fuel
  induction fuel with
  | zero => intro page st st1 h; cases h
  | succ fuel ih =>
    intro page st st1 h hk
    by_cases h0 : (feed page).length = 0
    · rw [syncLinkedLoop_succ_empty h0] at h
      cases h
      exact hk
    · by_cases hs : (feed page).length < syncPageSize ∨
        (processEntries st.keys (feed page)).allExist = true
      · rw [syncLinkedLoop_succ_stop h0 hs] at h
        cases h
        exact linkedKeys_insertAux_mono hk
      · rw [syncLinkedLoop_succ_go h0 hs] at h
        exact ih h (linkedKeys_insertAux_mono hk)

theorem syncAccountLoop_ids_mono {feed : Nat → List AccountTransaction × Bool} {k : String} :
    ∀ {fuel page : Nat} {st st1 : AccountSyncState},
      syncAccountLoop feed fuel page st = some st1 →
      k ∈ GetExistingAccountTxnIDs st.store →
      k ∈ GetExistingAccountTxnIDs st1.store := by
  intro fuel
  induction fuel with
  | zero => intro page st st1 h; cases h
  | succ fuel ih =>
    intro page st st1 h hk
    by_cases h0 : (feed page).1.length = 0
    · rw [syncAccountLoop_succ_empty h0] at h
      cases h
      exact hk
    · by_cases hs : (feed page).2 = false ∨
        (processAccountEntries st.ids (feed page).1).allExist = true
      · rw [syncAccountLoop_succ_stop h0 hs] at h
        cases h
        exact accountIds_insertAux_mono hk
      · rw [syncAccountLoop_succ_go h0 hs] at h
        exact ih h (accountIds_insertAux_mono hk)

theorem linked_page_cover {store : List LinkedRow} {entries : List Transaction}
    {t : Transaction} (ht : t ∈ entries) :
    txnKeyOf t ∈ GetExistingLinkedAccountTxnKeys
      (InsertLinkedAccountTransactions store
        (processEntries (GetExistingLinkedAccountTxnKeys store) entries).newTxns).1 := by
  have hseen : txnKeyOf t ∈
      (processEntries (GetExistingLinkedAccountTxnKeys store) entries).seenKeys :=
    processEntriesAux_mem_seen ht
  rcases processEntriesAux_seen_src hseen with h1 | ⟨u, hu, hk⟩
  · exact linkedKeys_insertAux_mono h1
  · rw [← hk]
    exact linkedKeys_insertAux_cover hu

theorem account_page_cover {store : List AccountTransaction}
    {entries : List AccountTransaction} {t : AccountTransaction} (ht : t ∈ entries) :
    t.id ∈ GetExistingAccountTxnIDs
      (InsertAccountTransactions store
        (processAccountEntries (GetExistingAccountTxnIDs store) entries).newTxns).1 := by
  have hseen : t.id ∈
      (processAccountEntries (GetExistingAccountTxnIDs store) entries).seenIds :=
    processAccountEntriesAux_mem_seen ht
  rcases processAccountEntriesAux_seen_src hseen with h1 | ⟨u, hu, hk⟩
  · exact accountIds_insertAux_mono h1
  · rw [← hk]
    exact accountIds_insertAux_cover hu

/-! ## Helper lemmas: re-running a sync against identical feed output -/

theorem syncCardFeed_rerun (store entries : List Transaction) :
    syncCardFeed (syncCardFeed store entries).1 entries =
      ((syncCardFeed store entries).1, 0) := by
  have hcov : ∀ t ∈ entries,
      (GetExistingCardTxnKeys (syncCardFeed store entries).1).contains (txnKeyOf t) = true := by
    intro t ht
    refine contains_iff_mem.mpr ?_
    by_cases hc : (GetExistingCardTxnKeys store).contains (txnKeyOf t) = true
    · exact cardKeys_insertAux_mono (contains_iff_mem.mp hc)
    · have hmem : t ∈ entries.filter
          fun u => !((GetExistingCardTxnKeys store).contains (txnKeyOf u)) := by
        refine List.mem_filter.mpr ⟨ht, ?_⟩
        simp [Bool.eq_false_iff.mpr, Bool.not_eq_true] at hc ⊢
        exact hc
      exact cardKeys_insertAux_cover hmem
  have hfilter : entries.filter
      (fun t => !((GetExistingCardTxnKeys (syncCardFeed store entries).1).contains
        (txnKeyOf t))) = [] := by
    refine List.filter_eq_nil_iff.mpr ?_
    intro t ht
    rw [hcov t ht]
    simp
  conv_lhs => rw [syncCardFeed]
  rw [hfilter]
  rfl

theorem syncCardAccountTransactions_rerun {feed : Nat → List Transaction}
    {store : List LinkedRow} {fuel fuel2 : Nat} {st1 : LinkedSyncState}
    (h : syncCardAccountTransactions feed store fuel = some st1) :
    syncCardAccountTransactions feed st1.store (fuel2 + 1) =
      some ⟨GetExistingLinkedAccountTxnKeys st1.store, st1.store, []⟩ := by
  -- every record of page 0 has its composite key stored after the first run
  have hcov : ∀ t ∈ feed 0, txnKeyOf t ∈ GetExistingLinkedAccountTxnKeys st1.store := by
    cases fuel with
    | zero => cases h
    | succ f =>
      intro t ht
      by_cases h0 : (feed 0).length = 0
      · rw [List.length_eq_zero] at h0
        rw [h0] at ht
        cases ht
      · unfold syncCardAccountTransactions at h
        by_cases hs : (feed 0).length < syncPageSize ∨
          (processEntries (GetExistingLinkedAccountTxnKeys store) (feed 0)).allExist = true
        · rw [syncLinkedLoop_succ_stop h0 hs] at h
          cases h
          exact linked_page_cover ht
        · rw [syncLinkedLoop_succ_go h0 hs] at h
          exact syncLinkedLoop_keys_mono h (linked_page_cover ht)
  -- the second run stops at page 0 inserting nothing
  unfold syncCardAccountTransactions
  by_cases h0 : (feed 0).length = 0
  · exact syncLinkedLoop_succ_empty h0
  · have hknown : ∀ t ∈ feed 0,
        (GetExistingLinkedAccountTxnKeys st1.store).contains (txnKeyOf t) = true :=
      fun t ht => contains_iff_mem.mpr (hcov t ht)
    have hr2 : processEntries (GetExistingLinkedAccountTxnKeys st1.store) (feed 0) =
        ⟨[], GetExistingLinkedAccountTxnKeys st1.store, true⟩ :=
      processEntriesAux_of_all_known hknown
    rw [syncLinkedLoop_succ_stop h0 (Or.inr (by rw [hr2]))]
    rw [hr2]
    rfl

theorem syncAccount_rerun {feed : Nat → List AccountTransaction × Bool}
    {store : List AccountTransaction} {fuel fuel2 : Nat} {st1 : AccountSyncState}
    (h : syncAccount feed store fuel = some st1) :
    syncAccount feed st1.store (fuel2 + 1) =
      some ⟨GetExistingAccountTxnIDs st1.store, st1.store⟩ := by
  have hcov : ∀ t ∈ (feed 0).1, t.id ∈ GetExistingAccountTxnIDs st1.store := by
    cases fuel with
    | zero => cases h
    | succ f =>
      intro t ht
      by_cases h0 : (feed 0).1.length = 0
      · rw [List.length_eq_zero] at h0
        rw [h0] at ht
        cases ht
      · unfold syncAccount at h
        by_cases hs : (feed 0).2 = false ∨
          (processAccountEntries (GetExistingAccountTxnIDs store) (feed 0).1).allExist = true
        · rw [syncAccountLoop_succ_stop h0 hs] at h
          cases h
          exact account_page_cover ht
        · rw [syncAccountLoop_succ_go h0 hs] at h
          exact syncAccountLoop_ids_mono h (account_page_cover ht)
  unfold syncAccount
  by_cases h0 : (feed 0).1.length = 0
  · exact syncAccountLoop_succ_empty h0
  · have hknown : ∀ t ∈ (feed 0).1,
        (GetExistingAccountTxnIDs st1.store).contains t.id = true :=
      fun t ht => contains_iff_mem.mpr (hcov t ht)
    have hr2 : processAccountEntries (GetExistingAccountTxnIDs st1.store) (feed 0).1 =
        ⟨[], GetExistingAccountTxnIDs st1.store, true⟩ :=
      processAccountEntriesAux_of_all_known hknown
    rw [syncAccountLoop_succ_stop h0 (Or.inr (by rw [hr2]))]
    rw [hr2]
    rfl

/-! ## Helper lemmas: enrichment -/

theorem collectExtInfos_none_of_fail {lookup : String → Option TransactionExtendedInfo}
    {txns : List Transaction} {t0 : Transaction} (ht : t0 ∈ txns)
    (hfail : lookup t0.id = none) : collectExtInfos lookup txns = none := by
  induction txns with
  | nil => cases ht
  | cons t ts ih =>
    rcases List.mem_cons.mp ht with rfl | hmem
    · simp [collectExtInfos, hfail]
    · cases hl : lookup t.id with
      | none => simp [collectExtInfos, hl]
      | some ext => simp [collectExtInfos, hl, ih hmem]

/-- A stored row carrying this transaction's composite pair with the
`extended_fetched` flag still clear. -/
def unfetchedPairIn (store : List LinkedRow) (t : Transaction) : Prop :=
  ∃ r ∈ store, r.txn.id = t.id ∧ r.txn.operationDate = t.operationDate ∧
    r.extendedFetched = false

theorem insertLinkedTxnsAux_append (ts : List Transaction) :
    ∀ (store : List LinkedRow) (n : Nat),
      ∃ ext, (insertLinkedTxnsAux store n ts).1 = store ++ ext := by
  induction ts with
  | nil => intro store n; exact ⟨[], by simp [insertLinkedTxnsAux]⟩
  | cons t ts ih =>
    intro store n
    by_cases hp : hasLinkedTxnPair store t = true
    · simp only [insertLinkedTxnsAux, hp, if_true]
      exact ih store n
    · simp only [insertLinkedTxnsAux, hp, if_false, Bool.false_eq_true]
      obtain ⟨ext, he⟩ := ih (store ++ [newLinkedRow t]) (n + 1)
      exact ⟨newLinkedRow t :: ext, by simpa using he⟩

theorem unfetchedPairIn_insert_mono {ts : List Transaction} {store : List LinkedRow}
    {n : Nat} {t : Transaction} (h : unfetchedPairIn store t) :
    unfetchedPairIn (insertLinkedTxnsAux store n ts).1 t := by
  obtain ⟨ext, he⟩ := insertLinkedTxnsAux_append ts store n
  obtain ⟨r, hr, hprops⟩ := h
  exact ⟨r, by rw [he]; exact List.mem_append_left _ hr, hprops⟩

theorem insertLinked_fresh_unfetched {ts : List Transaction} :
    ∀ {store : List LinkedRow} {n : Nat},
      (∀ t ∈ ts, unfetchedPairIn store t ∨ hasLinkedTxnPair store t = false) →
      ∀ t ∈ ts, unfetchedPairIn (insertLinkedTxnsAux store n ts).1 t := by
  induction ts with
  | nil => intro store n _ t ht; cases ht
  | cons u ts ih =>
    intro store n hdisj t ht
    by_cases hp : hasLinkedTxnPair store u = true
    · simp only [insertLinkedTxnsAux, hp, if_true]
      rcases List.mem_cons.mp ht with rfl | hmem
      · rcases hdisj t (by simp) with hin | hno
        · exact unfetchedPairIn_insert_mono hin
        · rw [hp] at hno; cases hno
      · exact ih (fun v hv => hdisj v (by simp [hv])) t hmem
    · simp only [insertLinkedTxnsAux, hp, if_false, Bool.false_eq_true]
      have hfreshmem : unfetchedPairIn (store ++ [newLinkedRow u]) u :=
        ⟨newLinkedRow u, by simp, by simp [newLinkedRow]⟩
      rcases List.mem_cons.mp ht with rfl | hmem
      · exact unfetchedPairIn_insert_mono hfreshmem
      · refine ih ?_ t hmem
        intro v hv
        rcases hdisj v (by simp [hv]) with hin | hno
        · obtain ⟨r, hr, hprops⟩ := hin
          exact Or.inl ⟨r, List.mem_append_left _ hr, hprops⟩
        · by_cases hvu : hasLinkedTxnPair (store ++ [newLinkedRow u]) v = true
          · obtain ⟨r, hr, hid, hdate⟩ := hasLinkedTxnPair_iff.mp hvu
            rcases List.mem_append.mp hr with hr1 | hr2
            · exact absurd (hasLinkedTxnPair_iff.mpr ⟨r, hr1, hid, hdate⟩)
                (by rw [hno]; simp)
            · refine Or.inl ⟨r, List.mem_append_right _ hr2, hid, hdate, ?_⟩
              have : r = newLinkedRow u := List.mem_singleton.mp hr2
              rw [this]
              rfl
          · exact Or.inr (Bool.not_eq_true _ ▸ Bool.eq_false_iff.mpr hvu)

theorem unfetchedPairIn_scan {store : List LinkedRow} {t : Transaction}
    (h : unfetchedPairIn store t) :
    (t.id, t.operationDate) ∈ GetTransactionsNeedingExtendedInfo store := by
  obtain ⟨r, hr, hid, hdate, hflag⟩ := h
  refine List.mem_map.mpr ⟨r, ?_, by rw [hid, hdate]⟩
  refine List.mem_filter.mpr ⟨hr, ?_⟩
  simp [hflag]

theorem applyExtInfos_nil (store : List LinkedRow) : applyExtInfos store [] = store := rfl

theorem applyExtInfos_cons (store : List LinkedRow)
    (info : String × String × TransactionExtendedInfo)
    (infos : List (String × String × TransactionExtendedInfo)) :
    applyExtInfos store (info :: infos) =
      applyExtInfos (UpdateTransactionExtendedInfo store info.1 info.2.1 info.2.2) infos := rfl

theorem storeExtInfoLoop_all_ok {writeOk : String → Bool}
    {infos : List (String × String × TransactionExtendedInfo)} :
    ∀ {store : List LinkedRow}, (∀ i ∈ infos, writeOk i.1 = true) →
      storeExtInfoLoop writeOk store infos = (applyExtInfos store infos, true) := by
  induction infos with
  | nil => intro store _; rfl
  | cons info rest ih =>
    intro store h
    have hw : writeOk info.1 = true := h info (by simp)
    simp only [storeExtInfoLoop, hw, if_true, applyExtInfos_cons]
    exact ih fun i hi => h i (by simp [hi])

theorem storeExtInfoLoop_fail_split {writeOk : String → Bool}
    {bad : String × String × TransactionExtendedInfo}
    {rest : List (String × String × TransactionExtendedInfo)}
    (hbad : writeOk bad.1 = false) :
    ∀ {pre : List (String × String × TransactionExtendedInfo)} {store : List LinkedRow},
      (∀ i ∈ pre, writeOk i.1 = true) →
      storeExtInfoLoop writeOk store (pre ++ bad :: rest) = (applyExtInfos store pre, false) := by
  intro pre
  induction pre with
  | nil =>
    intro store _
    simp only [List.nil_append, storeExtInfoLoop, hbad, applyExtInfos_nil]
    simp
  | cons info pres ih =>
    intro store h
    have hw : writeOk info.1 = true := h info (by simp)
    simp only [List.cons_append, storeExtInfoLoop, hw, if_true, applyExtInfos_cons]
    exact ih fun i hi => h i (by simp [hi])

/-! ## Helper lemmas: reconciliation -/

theorem merge_singleton_pair (parse : String → Option Int) (c l : Transaction)
    (tc tl : Int) (hamt : c.amount.amount = l.amount.amount)
    (hc : parse c.operationDate = some tc) (hl : parse l.operationDate = some tl) :
    (goAbs (tc - tl) ≤ timeTolerance → mergeTransactions parse [c] [l] = [l]) ∧
    (timeTolerance < goAbs (tc - tl) →
      mergeTransactions parse [c] [l] = c :: unmatchedLinkedPass [] [l]) := by
  have hbucket : amountBucket [l] c.amount.amount = [l] := by
    simp [amountBucket, hamt]
  constructor
  · intro hle
    have hbest : bestCandidate parse tc (amountBucket [l] c.amount.amount) = some l := by
      rw [hbucket]
      simp only [bestCandidate, bestCandidateAux, hl]
      rw [if_pos ⟨hle, by omega⟩]
    simp only [mergeTransactions, matchPass, hc, hbest]
    simp [unmatchedLinkedPass]
  · intro hgt
    have hbest : bestCandidate parse tc (amountBucket [l] c.amount.amount) = none := by
      rw [hbucket]
      simp only [bestCandidate, bestCandidateAux, hl]
      rw [if_neg (by omega)]
    simp only [mergeTransactions, matchPass, hc, hbest]
    rfl

/-! ## Concrete sample data used by the witnesses -/

/-- One-record linked-account feed: page 0 holds a single record. -/
def sampleLinkedTxn : Transaction :=
  { id := "lt1", operationDate := "2024-01-01T10:00:00Z" }

/-- Linked-account feed used by witnesses. -/
def sampleLinkedFeed : Nat → List Transaction := fun page =>
  if page = 0 then [sampleLinkedTxn] else []

/-- State after the first linked-account run over `sampleLinkedFeed`. -/
def sampleSt1 : LinkedSyncState :=
  ⟨["lt1|2024-01-01T10:00:00Z"], [newLinkedRow sampleLinkedTxn], [sampleLinkedTxn]⟩

/-- One-record account feed. -/
def sampleAccountTxn : AccountTransaction := { id := "at1" }

/-- Account feed used by witnesses. -/
def sampleAccountFeed : Nat → List AccountTransaction × Bool := fun page =>
  if page = 0 then ([sampleAccountTxn], false) else ([], false)

/-- State after the first account run over `sampleAccountFeed`. -/
def sampleASt1 : AccountSyncState := ⟨["at1"], [sampleAccountTxn]⟩

/-- Always-empty linked feed. -/
def emptyLinkedFeed : Nat → List Transaction := fun _ => []

/-- Account feed returning an empty page with `hasNext = true`. -/
def emptyAccountFeedTrue : Nat → List AccountTransaction × Bool := fun _ => ([], true)

/-- Two records sharing an id but not an operation date. -/
def sampleA : Transaction := { id := "t1", operationDate := "2024-01-01T10:00:00Z" }

/-- Second record with the same id as `sampleA` and a different date. -/
def sampleB : Transaction := { id := "t1", operationDate := "2024-01-01T10:30:00Z" }

/-! ## Claims -/

/-- Claim C1: syncing a product a second time against remote feeds returning
output identical to the first run inserts zero new rows. The card-feed sync
filters against the stored key set, so its second run filters everything out
and inserts 0; the linked-account loop and the account loop, restarted on the
store a successful first run produced, stop with the store unchanged and an
empty inserted set, so the stored row count after the second run equals the
count after the first. -/
theorem sync_rerun_inserts_nothing :
    (∀ store entries : List Transaction,
      syncCardFeed (syncCardFeed store entries).1 entries =
        ((syncCardFeed store entries).1, 0)) ∧
    (∀ (feed : Nat → List Transaction) (store : List LinkedRow) (fuel fuel2 : Nat)
        (st1 : LinkedSyncState),
      syncCardAccountTransactions feed store fuel = some st1 →
      syncCardAccountTransactions feed st1.store (fuel2 + 1) =
        some ⟨GetExistingLinkedAccountTxnKeys st1.store, st1.store, []⟩) ∧
    (∀ (afeed : Nat → List AccountTransaction × Bool) (astore : List AccountTransaction)
        (fuel fuel2 : Nat) (ast1 : AccountSyncState),
      syncAccount afeed astore fuel = some ast1 →
      syncAccount afeed ast1.store (fuel2 + 1) =
        some ⟨GetExistingAccountTxnIDs ast1.store, ast1.store⟩) :=
  ⟨syncCardFeed_rerun,
   fun _ _ _ _ _ h => syncCardAccountTransactions_rerun h,
   fun _ _ _ _ _ h => syncAccount_rerun h⟩

/-- Witness for C1 at a concrete one-record feed, fuel 1. -/
theorem sync_rerun_inserts_nothing_witness :
    syncCardAccountTransactions sampleLinkedFeed [] 1 = some sampleSt1 ∧
    syncCardAccountTransactions sampleLinkedFeed sampleSt1.store 1 =
      some ⟨GetExistingLinkedAccountTxnKeys sampleSt1.store, sampleSt1.store, []⟩ ∧
    syncAccount sampleAccountFeed [] 1 = some sampleASt1 ∧
    syncAccount sampleAccountFeed sampleASt1.store 1 =
      some ⟨GetExistingAccountTxnIDs sampleASt1.store, sampleASt1.store⟩ :=
  ⟨by decide,
   sync_rerun_inserts_nothing.2.1 sampleLinkedFeed [] 1 0 sampleSt1 (by decide),
   by decide,
   sync_rerun_inserts_nothing.2.2 sampleAccountFeed [] 1 0 sampleASt1 (by decide)⟩

/-- Claim C2: the linked-account loop, given fuel for at least one more page,
stops after processing a page exactly when the page was shorter than the page
size (1000) or when every record on the page had a composite key already known
before the page was fetched; in every other case it recurses with the page
index advanced by exactly one. The third conjunct identifies the code's
`allExist` flag with "every record's key was known before this page". -/
theorem linked_sync_stop_iff (feed : Nat → List Transaction) (page fuel : Nat)
    (st : LinkedSyncState) :
    ((feed page).length < syncPageSize ∨
        (processEntries st.keys (feed page)).allExist = true →
      syncLinkedLoop feed (fuel + 1) page st =
        some ⟨(processEntries st.keys (feed page)).seenKeys,
          (InsertLinkedAccountTransactions st.store
            (processEntries st.keys (feed page)).newTxns).1,
          st.allNewTxns ++ (processEntries st.keys (feed page)).newTxns⟩) ∧
    (¬ ((feed page).length < syncPageSize ∨
        (processEntries st.keys (feed page)).allExist = true) →
      syncLinkedLoop feed (fuel + 1) page st =
        syncLinkedLoop feed fuel (page + 1)
          ⟨(processEntries st.keys (feed page)).seenKeys,
            (InsertLinkedAccountTransactions st.store
              (processEntries st.keys (feed page)).newTxns).1,
            st.allNewTxns ++ (processEntries st.keys (feed page)).newTxns⟩) ∧
    ((processEntries st.keys (feed page)).allExist = true ↔
      ∀ t ∈ feed page, st.keys.contains (txnKeyOf t) = true) := by
  refine ⟨?_, ?_, processEntries_allExist_iff⟩
  · intro h
    by_cases h0 : (feed page).length = 0
    · rw [syncLinkedLoop_succ_empty h0]
      have he : feed page = [] := List.length_eq_zero.mp h0
      rw [he]
      cases st
      simp [processEntries, processEntriesAux, InsertLinkedAccountTransactions,
        insertLinkedTxnsAux]
    · exact syncLinkedLoop_succ_stop h0 h
  · intro h
    have h0 : ¬ (feed page).length = 0 := by
      intro h0
      exact h (Or.inl (by rw [h0]; decide))
    exact syncLinkedLoop_succ_go h0 h

/-- Witness for C2: a one-record page (shorter than the page size) stops the
loop after being processed. -/
theorem linked_sync_stop_iff_witness :
    ((sampleLinkedFeed 0).length < syncPageSize ∨
      (processEntries (⟨[], [], []⟩ : LinkedSyncState).keys
        (sampleLinkedFeed 0)).allExist = true) ∧
    syncLinkedLoop sampleLinkedFeed 1 0 ⟨[], [], []⟩ = some sampleSt1 := by
  refine ⟨Or.inl (by decide), ?_⟩
  have h := (linked_sync_stop_iff sampleLinkedFeed 0 0 ⟨[], [], []⟩).1 (Or.inl (by decide))
  exact h.trans (by decide)

/-- Claim C9: the stores' identity key for card and linked-account records is
the composite pair `(id, operationDate)`: two records with the same id but
different operation dates are both persisted as separate rows (inserted count
2), in the card table and in the linked-account table. -/
theorem composite_key_two_rows (store : List Transaction) (lstore : List LinkedRow)
    (a b : Transaction) (hid : a.id = b.id) (hdate : a.operationDate ≠ b.operationDate)
    (ha : hasCardTxnPair store a = false) (hb : hasCardTxnPair store b = false)
    (la : hasLinkedTxnPair lstore a = false) (lb : hasLinkedTxnPair lstore b = false) :
    InsertCardTransactions store [a, b] = (store ++ [a] ++ [b], 2) ∧
    InsertLinkedAccountTransactions lstore [a, b] =
      (lstore ++ [newLinkedRow a] ++ [newLinkedRow b], 2) := by
  have hab : hasCardTxnPair (store ++ [a]) b = false := by
    simp only [hasCardTxnPair, List.any_append, Bool.or_eq_false_iff]
    refine ⟨hb, ?_⟩
    simp [hdate]
  have lab : hasLinkedTxnPair (lstore ++ [newLinkedRow a]) b = false := by
    simp only [hasLinkedTxnPair, List.any_append, Bool.or_eq_false_iff]
    refine ⟨lb, ?_⟩
    simp [newLinkedRow, hdate]
  constructor
  · simp only [InsertCardTransactions, insertCardTxnsAux, ha, hab, if_false,
      Bool.false_eq_true]
  · simp only [InsertLinkedAccountTransactions, insertLinkedTxnsAux, la, lab, if_false,
      Bool.false_eq_true]

/-- Witness for C9 at two concrete records sharing the id `t1`. -/
theorem composite_key_two_rows_witness :
    sampleA.id = sampleB.id ∧ sampleA.operationDate ≠ sampleB.operationDate ∧
    InsertCardTransactions [] [sampleA, sampleB] = ([sampleA, sampleB], 2) ∧
    InsertLinkedAccountTransactions [] [sampleA, sampleB] =
      ([newLinkedRow sampleA, newLinkedRow sampleB], 2) := by
  have h := composite_key_two_rows [] [] sampleA sampleB rfl (by decide)
    (by decide) (by decide) (by decide) (by decide)
  exact ⟨rfl, by decide, h.1.trans (by decide), h.2.trans (by decide)⟩

/-- Claim C10: a fetched page with zero records terminates both paginated
loops immediately; the account loop stops on an empty page before ever
consulting the feed's `hasNext` flag, so it stops even when `hasNext` is
true. -/
theorem empty_page_stops_loops (feed : Nat → List Transaction)
    (afeed : Nat → List AccountTransaction × Bool) (page apage fuel afuel : Nat)
    (st : LinkedSyncState) (ast : AccountSyncState)
    (h : feed page = []) (ha : (afeed apage).1 = []) :
    syncLinkedLoop feed (fuel + 1) page st = some st ∧
    syncAccountLoop afeed (afuel + 1) apage ast = some ast :=
  ⟨syncLinkedLoop_succ_empty (by rw [h]; rfl),
   syncAccountLoop_succ_empty (by rw [ha]; rfl)⟩

/-- Witness for C10: the account feed reports an empty page with
`hasNext = true` and the loop still stops. -/
theorem empty_page_stops_loops_witness :
    emptyLinkedFeed 0 = [] ∧ (emptyAccountFeedTrue 0).1 = [] ∧
    (emptyAccountFeedTrue 0).2 = true ∧
    syncLinkedLoop emptyLinkedFeed 1 0 ⟨[], [], []⟩ = some ⟨[], [], []⟩ ∧
    syncAccountLoop emptyAccountFeedTrue 1 0 ⟨[], []⟩ = some ⟨[], []⟩ := by
  have h := empty_page_stops_loops emptyLinkedFeed emptyAccountFeedTrue 0 0 0 0
    ⟨[], [], []⟩ ⟨[], []⟩ rfl rfl
  exact ⟨rfl, rfl, rfl, h.1, h.2⟩

/-- Claim C3: if any detail lookup of an enrichment batch fails, no
extended-info result is written back for any transaction of the batch — the
store is returned unchanged with an error — and every transaction of the
batch (being freshly inserted with the fetched flag clear) is still returned
by the needs-enrichment scan. -/
theorem enrichment_failure_writes_nothing
    (lookup : String → Option TransactionExtendedInfo) (writeOk : String → Bool)
    (store : List LinkedRow) (txns : List Transaction) (t0 : Transaction)
    (ht0 : t0 ∈ txns) (hfail : lookup t0.id = none)
    (hfresh : ∀ t ∈ txns, hasLinkedTxnPair store t = false) :
    fetchAndStoreExtendedInfo lookup writeOk
        (InsertLinkedAccountTransactions store txns).1 txns =
      ((InsertLinkedAccountTransactions store txns).1, false) ∧
    ∀ t ∈ txns, (t.id, t.operationDate) ∈
      GetTransactionsNeedingExtendedInfo (InsertLinkedAccountTransactions store txns).1 := by
  constructor
  · simp [fetchAndStoreExtendedInfo, collectExtInfos_none_of_fail ht0 hfail]
  · intro t ht
    refine unfetchedPairIn_scan ?_
    exact insertLinked_fresh_unfetched (fun v hv => Or.inr (hfresh v hv)) t ht

/-- Fresh batch records for the enrichment witnesses. -/
def c3txn1 : Transaction := { id := "e1", operationDate := "d1" }

/-- Second fresh batch record; its detail lookup fails. -/
def c3txn2 : Transaction := { id := "e2", operationDate := "d2" }

/-- Detail lookup that succeeds for `e1` and fails for `e2`. -/
def c3lookup : String → Option TransactionExtendedInfo := fun s =>
  if s == "e1" then some {} else none

/-- Witness for C3: a two-record batch whose second lookup fails; nothing is
written and both records stay in the needs-enrichment scan. -/
theorem enrichment_failure_writes_nothing_witness :
    c3txn2 ∈ [c3txn1, c3txn2] ∧ c3lookup c3txn2.id = none ∧
    fetchAndStoreExtendedInfo c3lookup (fun _ => true)
        (InsertLinkedAccountTransactions [] [c3txn1, c3txn2]).1 [c3txn1, c3txn2] =
      ((InsertLinkedAccountTransactions [] [c3txn1, c3txn2]).1, false) ∧
    (c3txn1.id, c3txn1.operationDate) ∈
      GetTransactionsNeedingExtendedInfo
        (InsertLinkedAccountTransactions [] [c3txn1, c3txn2]).1 ∧
    (c3txn2.id, c3txn2.operationDate) ∈
      GetTransactionsNeedingExtendedInfo
        (InsertLinkedAccountTransactions [] [c3txn1, c3txn2]).1 := by
  have h := enrichment_failure_writes_nothing c3lookup (fun _ => true) []
    [c3txn1, c3txn2] c3txn2 (by decide) (by decide) (by decide)
  exact ⟨by decide, by decide, h.1, h.2 c3txn1 (by decide), h.2 c3txn2 (by decide)⟩

/-- Default extended info payload used in counterexamples. -/
def sampleExt : TransactionExtendedInfo := {}

/-- First stored row of the C4 counterexample batch. -/
def c4row1 : LinkedRow := newLinkedRow { id := "t1", operationDate := "d1" }

/-- Second stored row of the C4 counterexample batch. -/
def c4row2 : LinkedRow := newLinkedRow { id := "t2", operationDate := "d2" }

/-- Store that accepts the update for `t1` and fails the update for `t2`. -/
def c4writeOk : String → Bool := fun s => s == "t1"

/-- Detail lookup that succeeds for every transaction. -/
def c4lookup : String → Option TransactionExtendedInfo := fun _ => some sampleExt

/-- The C4 batch: both lookups succeed, persistence fails on the second row. -/
def c4txns : List Transaction :=
  [{ id := "t1", operationDate := "d1" }, { id := "t2", operationDate := "d2" }]

/-- Counterexample to C4: with every lookup succeeding but the second store
update failing, the enrichment run errors out while the first transaction of
the batch is left durably enriched and the second is not, so both outcomes
"all written" and "none written" fail: persistence is not atomic per batch. -/
theorem extended_info_batch_not_atomic_cex :
    (fetchAndStoreExtendedInfo c4lookup c4writeOk [c4row1, c4row2] c4txns).2 = false ∧
    ((fetchAndStoreExtendedInfo c4lookup c4writeOk [c4row1, c4row2] c4txns).1.map
      fun r => r.extendedFetched) = [true, false] := by decide

/-- Claim C4 (amended): collected extended-info results are persisted one
transaction at a time, each row's fields and fetched flag set together by a
single update; when every update succeeds the whole batch is written, and
when an update fails partway the rows before the failure stay enriched while
the failing row and everything after it are left untouched. -/
theorem extended_info_persisted_per_row (writeOk : String → Bool)
    (lookup : String → Option TransactionExtendedInfo)
    (store : List LinkedRow) (txns : List Transaction)
    (infos pre rest : List (String × String × TransactionExtendedInfo))
    (bad : String × String × TransactionExtendedInfo) :
    ((∀ i ∈ infos, writeOk i.1 = true) →
      storeExtInfoLoop writeOk store infos = (applyExtInfos store infos, true)) ∧
    ((∀ i ∈ pre, writeOk i.1 = true) → writeOk bad.1 = false →
      storeExtInfoLoop writeOk store (pre ++ bad :: rest) =
        (applyExtInfos store pre, false)) ∧
    (collectExtInfos lookup txns = some infos → (∀ i ∈ infos, writeOk i.1 = true) →
      fetchAndStoreExtendedInfo lookup writeOk store txns =
        (applyExtInfos store infos, true)) := by
  refine ⟨fun h => storeExtInfoLoop_all_ok h,
    fun hp hb => storeExtInfoLoop_fail_split hb hp, fun hcoll h => ?_⟩
  simp [fetchAndStoreExtendedInfo, hcoll, storeExtInfoLoop_all_ok h]

/-- Witness for C4 (amended) at the concrete two-row batch: the first update
is accepted, the second fails, and the loop stops having applied exactly the
prefix before the failure. -/
theorem extended_info_persisted_per_row_witness :
    (∀ i ∈ [(("t1", "d1", sampleExt) : String × String × TransactionExtendedInfo)],
      c4writeOk i.1 = true) ∧
    c4writeOk ("t2", "d2", sampleExt).1 = false ∧
    storeExtInfoLoop c4writeOk [c4row1, c4row2]
        ([("t1", "d1", sampleExt)] ++ ("t2", "d2", sampleExt) :: []) =
      (applyExtInfos [c4row1, c4row2] [("t1", "d1", sampleExt)], false) := by
  have h := (extended_info_persisted_per_row c4writeOk c4lookup [c4row1, c4row2]
    c4txns [] [("t1", "d1", sampleExt)] [] ("t2", "d2", sampleExt)).2.1
    (by decide) (by decide)
  exact ⟨by decide, by decide, h⟩

theorem unmatchedLinkedPass_cons_claimed {keys : List String} {x : Transaction}
    {rest : List Transaction} (hc : keys.contains (txnKeyOf x) = true) :
    unmatchedLinkedPass keys (x :: rest) = unmatchedLinkedPass keys rest := by
  simp only [unmatchedLinkedPass]
  rw [if_pos hc]

theorem unmatchedLinkedPass_cons_card {keys : List String} {x : Transaction}
    {rest : List Transaction} (hc : ¬ keys.contains (txnKeyOf x) = true)
    (hcard : (x.transactionType == "card") = true) :
    unmatchedLinkedPass keys (x :: rest) = unmatchedLinkedPass keys rest := by
  simp only [unmatchedLinkedPass]
  rw [if_neg hc, if_pos hcard]

theorem unmatchedLinkedPass_cons_keep {keys : List String} {x : Transaction}
    {rest : List Transaction} (hc : ¬ keys.contains (txnKeyOf x) = true)
    (hcard : ¬ (x.transactionType == "card") = true)
    (hrt : RealTimeTransactionTypes.contains x.transactionType = true) :
    unmatchedLinkedPass keys (x :: rest) = x :: unmatchedLinkedPass keys rest := by
  simp only [unmatchedLinkedPass]
  rw [if_neg hc, if_neg hcard, if_pos hrt]

theorem unmatchedLinkedPass_cons_drop {keys : List String} {x : Transaction}
    {rest : List Transaction} (hc : ¬ keys.contains (txnKeyOf x) = true)
    (hcard : ¬ (x.transactionType == "card") = true)
    (hrt : ¬ RealTimeTransactionTypes.contains x.transactionType = true) :
    unmatchedLinkedPass keys (x :: rest) = unmatchedLinkedPass keys rest := by
  simp only [unmatchedLinkedPass]
  rw [if_neg hc, if_neg hcard, if_neg hrt]

/-- Claim C8: after the matching pass, the surviving unclaimed linked records
are exactly those whose key was not claimed, whose type is not the literal
`"card"`, and whose type is in the fixed real-time allow-list
{transfer:to-card, transfer:local, exchange, cash-out,
transfer:between-own-accounts}; every other unclaimed record is dropped. -/
theorem unmatched_linked_filter (keys : List String) (ls : List Transaction)
    (l : Transaction) :
    l ∈ unmatchedLinkedPass keys ls ↔
      l ∈ ls ∧ keys.contains (txnKeyOf l) = false ∧ l.transactionType ≠ "card" ∧
      l.transactionType ∈ ["transfer:to-card", "transfer:local", "exchange",
        "cash-out", "transfer:between-own-accounts"] := by
  induction ls with
  | nil => simp [unmatchedLinkedPass]
  | cons x rest ih =>
    by_cases hc : keys.contains (txnKeyOf x) = true
    · rw [unmatchedLinkedPass_cons_claimed hc, ih]
      constructor
      · rintro ⟨hmem, hrest⟩
        exact ⟨List.mem_cons_of_mem _ hmem, hrest⟩
      · rintro ⟨hmem, hk, hcard, hrt⟩
        rcases List.mem_cons.mp hmem with rfl | hmem2
        · rw [hc] at hk; cases hk
        · exact ⟨hmem2, hk, hcard, hrt⟩
    · by_cases hcard : (x.transactionType == "card") = true
      · rw [unmatchedLinkedPass_cons_card hc hcard, ih]
        constructor
        · rintro ⟨hmem, hrest⟩
          exact ⟨List.mem_cons_of_mem _ hmem, hrest⟩
        · rintro ⟨hmem, hk, hcardl, hrt⟩
          rcases List.mem_cons.mp hmem with rfl | hmem2
          · exact absurd (beq_iff_eq.mp hcard) hcardl
          · exact ⟨hmem2, hk, hcardl, hrt⟩
      · by_cases hrt : RealTimeTransactionTypes.contains x.transactionType = true
        · rw [unmatchedLinkedPass_cons_keep hc hcard hrt]
          constructor
          · intro hm
            rcases List.mem_cons.mp hm with rfl | hmem2
            · refine ⟨by simp, Bool.eq_false_iff.mpr hc, ?_, ?_⟩
              · intro he
                exact hcard (beq_iff_eq.mpr he)
              · have : l.transactionType ∈ RealTimeTransactionTypes :=
                  contains_iff_mem.mp hrt
                simpa [RealTimeTransactionTypes] using this
            · obtain ⟨hmem, hrest⟩ := ih.mp hmem2
              exact ⟨List.mem_cons_of_mem _ hmem, hrest⟩
          · rintro ⟨hmem, hk, hcardl, hrtl⟩
            rcases List.mem_cons.mp hmem with rfl | hmem2
            · exact List.mem_cons_self _ _
            · exact List.mem_cons_of_mem _ (ih.mpr ⟨hmem2, hk, hcardl, hrtl⟩)
        · rw [unmatchedLinkedPass_cons_drop hc hcard hrt, ih]
          constructor
          · rintro ⟨hmem, hrest⟩
            exact ⟨List.mem_cons_of_mem _ hmem, hrest⟩
          · rintro ⟨hmem, hk, hcardl, hrtl⟩
            rcases List.mem_cons.mp hmem with rfl | hmem2
            · refine absurd ?_ hrt
              refine contains_iff_mem.mpr ?_
              simpa [RealTimeTransactionTypes] using hrtl
            · exact ⟨hmem2, hk, hcardl, hrtl⟩

/-- Concrete RFC3339 date table standing in for `time.Parse` on the sample
operation dates (nanoseconds since the first sample instant). -/
def parseSample : String → Option Int := fun s =>
  if s == "2024-01-01T10:00:00Z" then some 0
  else if s == "2024-01-01T10:00:20Z" then some (20 * 1000000000)
  else if s == "2024-01-01T10:01:40Z" then some (100 * 1000000000)
  else none

/-- First card record of the C5 counterexample (10:00:00, amount 500). -/
def c5card1 : Transaction :=
  { id := "c1", operationDate := "2024-01-01T10:00:00Z",
    amount := { currency := "AMD", amount := 500 } }

/-- Second card record of the C5 counterexample (10:00:20, amount 500). -/
def c5card2 : Transaction :=
  { id := "c2", operationDate := "2024-01-01T10:00:20Z",
    amount := { currency := "AMD", amount := 500 } }

/-- The single linked record both card records are within tolerance of. -/
def c5linked : Transaction :=
  { id := "l1", operationDate := "2024-01-01T10:00:00Z",
    amount := { currency := "AMD", amount := 500 },
    transactionType := "transfer:to-card" }

/-- Counterexample to C5: the candidate scan never consults the claimed-key
set, so the linked record claimed by the first card record is matched again
by the second card record and occurs twice in the merged output. -/
theorem claimed_linked_rematched_cex :
    mergeTransactions parseSample [c5card1, c5card2] [c5linked] =
      [c5linked, c5linked] ∧
    (mergeTransactions parseSample [c5card1, c5card2] [c5linked]).count c5linked = 2 := by
  decide

/-- Claim C5 (amended): the matching pass is record-by-record independent —
each card record picks the best candidate of the full amount bucket,
regardless of claims made by earlier card records, so an already-claimed
linked record can be emitted once per matching card record; the claimed-key
set only excludes claimed records from the unmatched-linked pass. -/
theorem match_pass_ignores_earlier_claims (parse : String → Option Int)
    (linkedTxns cards : List Transaction) :
    (matchPass parse linkedTxns cards).1 = cards.map (fun c =>
      match parse c.operationDate with
      | none => c
      | some ct =>
        (bestCandidate parse ct (amountBucket linkedTxns c.amount.amount)).getD c) ∧
    (∀ (keys : List String) (l : Transaction) (ls : List Transaction),
      l ∈ unmatchedLinkedPass keys ls → keys.contains (txnKeyOf l) = false) := by
  constructor
  · induction cards with
    | nil => rfl
    | cons c cs ih =>
      simp only [matchPass, List.map_cons]
      cases hp : parse c.operationDate with
      | none => simp [hp, ih]
      | some ct =>
        cases hb : bestCandidate parse ct (amountBucket linkedTxns c.amount.amount) with
        | none => simp [hp, hb, ih]
        | some m => simp [hp, hb, ih]
  · intro keys l ls h
    induction ls with
    | nil => cases h
    | cons x rest ih =>
      by_cases hc : keys.contains (txnKeyOf x) = true
      · rw [unmatchedLinkedPass_cons_claimed hc] at h
        exact ih h
      · by_cases hcard : (x.transactionType == "card") = true
        · rw [unmatchedLinkedPass_cons_card hc hcard] at h
          exact ih h
        · by_cases hrt : RealTimeTransactionTypes.contains x.transactionType = true
          · rw [unmatchedLinkedPass_cons_keep hc hcard hrt] at h
            rcases List.mem_cons.mp h with rfl | hmem
            · exact Bool.eq_false_iff.mpr hc
            · exact ih hmem
          · rw [unmatchedLinkedPass_cons_drop hc hcard hrt] at h
            exact ih h

/-- Witness for C5 (amended): both card records map to the same bucket
winner, and a record emitted by the unmatched pass is necessarily
unclaimed. -/
theorem match_pass_ignores_earlier_claims_witness :
    (matchPass parseSample [c5linked] [c5card1, c5card2]).1 =
      [c5linked, c5linked] ∧
    c5linked ∈ unmatchedLinkedPass [] [c5linked] ∧
    ([] : List String).contains (txnKeyOf c5linked) = false := by
  have h := match_pass_ignores_earlier_claims parseSample [c5linked] [c5card1, c5card2]
  exact ⟨h.1.trans (by decide), by decide, h.2 [] c5linked [c5linked] (by decide)⟩

/-- Card record in USD for the C6 counterexample. -/
def c6card : Transaction :=
  { id := "c1", operationDate := "2024-01-01T10:00:00Z",
    amount := { currency := "USD", amount := 500 } }

/-- Linked record in AMD with the same numeric value as `c6card`. -/
def c6linked : Transaction :=
  { id := "l1", operationDate := "2024-01-01T10:00:20Z",
    amount := { currency := "AMD", amount := 500 },
    transactionType := "transfer:local" }

/-- Counterexample to C6: the bucket map is keyed by the numeric amount value
alone, so a USD card record is matched to (and replaced by) an AMD linked
record of equal numeric value. -/
theorem amount_bucket_ignores_currency_cex :
    mergeTransactions parseSample [c6card] [c6linked] = [c6linked] ∧
    c6card.amount.currency ≠ c6linked.amount.currency := by
  decide

/-- Claim C6 (amended): reconciliation indexes linked records by the numeric
amount value only — the currency code is not part of the bucket key — so a
card record is matched to any linked record of equal decimal value within the
time tolerance, even when the currencies differ. -/
theorem merge_matches_across_currencies (parse : String → Option Int)
    (c l : Transaction) (tc tl : Int) (hamt : c.amount.amount = l.amount.amount)
    (hcur : c.amount.currency ≠ l.amount.currency)
    (hc : parse c.operationDate = some tc) (hl : parse l.operationDate = some tl)
    (hle : goAbs (tc - tl) ≤ timeTolerance) :
    mergeTransactions parse [c] [l] = [l] ∧
    amountBucket [l] c.amount.amount = [l] :=
  ⟨(merge_singleton_pair parse c l tc tl hamt hc hl).1 hle,
   by simp [amountBucket, hamt]⟩

/-- Witness for C6 (amended) at the USD/AMD pair. -/
theorem merge_matches_across_currencies_witness :
    c6card.amount.amount = c6linked.amount.amount ∧
    c6card.amount.currency ≠ c6linked.amount.currency ∧
    parseSample c6card.operationDate = some 0 ∧
    parseSample c6linked.operationDate = some 20000000000 ∧
    goAbs ((0 : Int) - 20000000000) ≤ timeTolerance ∧
    mergeTransactions parseSample [c6card] [c6linked] = [c6linked] := by
  have h := merge_matches_across_currencies parseSample c6card c6linked 0 20000000000
    rfl (by decide) (by decide) (by decide) (by decide)
  exact ⟨rfl, by decide, by decide, by decide, by decide, h.1⟩

/-- Linked record 100 seconds away from `c5card1`, outside the tolerance. -/
def c7linkedFar : Transaction :=
  { id := "l2", operationDate := "2024-01-01T10:01:40Z",
    amount := { currency := "AMD", amount := 500 },
    transactionType := "transfer:to-card" }

/-- Claim C7: for a card record and a linked record of equal amount value
whose parsed dates differ by at most 60 seconds, the merged output is the
single linked record; when the difference exceeds 60 seconds the card record
is emitted unchanged followed by whatever the unmatched-linked pass keeps of
the linked record. -/
theorem merge_time_tolerance (parse : String → Option Int) (c l : Transaction)
    (tc tl : Int) (hamt : c.amount.amount = l.amount.amount)
    (hc : parse c.operationDate = some tc) (hl : parse l.operationDate = some tl) :
    (goAbs (tc - tl) ≤ timeTolerance → mergeTransactions parse [c] [l] = [l]) ∧
    (timeTolerance < goAbs (tc - tl) →
      mergeTransactions parse [c] [l] = c :: unmatchedLinkedPass [] [l]) :=
  merge_singleton_pair parse c l tc tl hamt hc hl

/-- Witness for C7: a 0-second pair merges into the linked record; a
100-second pair leaves the card record unmatched. -/
theorem merge_time_tolerance_witness :
    (c5card1.amount.amount = c5linked.amount.amount ∧
      parseSample c5card1.operationDate = some 0 ∧
      parseSample c5linked.operationDate = some 0 ∧
      goAbs ((0 : Int) - 0) ≤ timeTolerance ∧
      mergeTransactions parseSample [c5card1] [c5linked] = [c5linked]) ∧
    (parseSample c7linkedFar.operationDate = some 100000000000 ∧
      timeTolerance < goAbs ((0 : Int) - 100000000000) ∧
      mergeTransactions parseSample [c5card1] [c7linkedFar] =
        c5card1 :: unmatchedLinkedPass [] [c7linkedFar]) := by
  have h1 := (merge_time_tolerance parseSample c5card1 c5linked 0 0 rfl
    (by decide) (by decide)).1 (by decide)
  have h2 := (merge_time_tolerance parseSample c5card1 c7linkedFar 0 100000000000 rfl
    (by decide) (by decide)).2 (by decide)
  exact ⟨⟨rfl, by decide, by decide, by decide, h1⟩, ⟨by decide, by decide, h2⟩⟩

/-- Witness for C8 instantiated at a kept allow-list record. -/
theorem unmatched_linked_filter_witness :
    c6linked ∈ unmatchedLinkedPass [] [c6linked] ↔
      c6linked ∈ [c6linked] ∧
      ([] : List String).contains (txnKeyOf c6linked) = false ∧
      c6linked.transactionType ≠ "card" ∧
      c6linked.transactionType ∈ ["transfer:to-card", "transfer:local", "exchange",
        "cash-out", "transfer:between-own-accounts"] :=
  unmatched_linked_filter [] [c6linked] c6linked
